import Mathlib

/-
Verification development for the hazard-lookup service in `app.py`.

The service answers "what hazard values apply at point (lat, lon)?" by
querying per-field polygon layers through a spatial index and a tiered
point-location algorithm (`query_point`).  This file is a shallow
embedding of that code:

* Python floats are modelled as rationals (`ℚ`).
* The external geometry library (shapely) is modelled abstractly: a
  `Geom` carries the observable behaviour of a shapely geometry
  (`covers`, `distance`, `nearest_points`, `representative_point`,
  `exterior.coords`), where an `Option` result of `none` models the
  call raising an exception.
* An `STree` models a built `STRtree`.  Its query results are the
  already-normalized index lists that `_to_index_array` produces
  (the Shapely 2.x path, where the tree returns integer indices and
  normalization is the identity on them); a result of `none` models
  the call raising.  `queryEnv` models `strtree.query(pt.buffer(0.45))`,
  i.e. the expanded ~50 km envelope re-query.
* Transcendental float functions (`math.sin`, ..., and the `float()`
  builtin applied to strings) are fields of `PyOps`, so theorems
  quantify over their behaviour.
* Code that can raise an uncaught exception is translated into
  `Option`/`Except`-valued functions, where `none`/`.error` means the
  exception propagates to the caller.
-/

namespace KML

/-- Attribute values: either a float or a string, matching what
`safe_number` stores during the load phase. -/
inductive Value where
  | num (q : ℚ)
  | str (s : String)
deriving DecidableEq, Repr

/-- A shapely point `Point(lon, lat)`: `.1` is `x` (= lon), `.2` is `y` (= lat). -/
abbrev Pt := ℚ × ℚ

/-- Abstract shapely geometry.  A `none` result models the call raising. -/
structure Geom where
  covers : Pt → Option Bool
  dist : Pt → Option ℚ
  nearestPts : Pt → Option (Pt × Pt)
  reprPoint : Option Pt
  exterior : Option (List Pt)

/-- Abstract built `STRtree`.  Results are normalized index lists
(`_to_index_array` output); `none` models the call raising.
`queryEnv pt` stands for `strtree.query(pt.buffer(0.45))`. -/
structure STree where
  queryPt : Pt → Option (List Nat)
  queryEnv : Pt → Option (List Nat)
  nearest : Pt → Option (List Nat)

/-- The `Layer` class: one field's geometries, attribute maps, source
file names, and optional spatial index. -/
structure Layer where
  field : String
  geoms : List Geom
  attrs : List (List (String × Value))
  sources : List String
  strtree : Option STree

/-- External float semantics: the `math` module functions used by
`haversine_km`, and the `float()` builtin on strings (`none` models
`ValueError`). -/
structure PyOps where
  sin : ℚ → ℚ
  cos : ℚ → ℚ
  asin : ℚ → ℚ
  sqrt : ℚ → ℚ
  radians : ℚ → ℚ
  pyFloat : String → Option ℚ

/-- One per-field query result record. -/
structure Record where
  value : Value
  unit : String
  source : String
  distance_km : Option ℚ
deriving DecidableEq, Repr

/-- One debug introspection row. -/
structure DebugRow where
  field : String
  picked_from : String
  value : Value
  selection : String
  inside_or_on_boundary : Bool
  distance_km : Option ℚ
  polygon_centroid_latlon : Option (ℚ × ℚ)
  polygon_sample_latlon : Option (List (ℚ × ℚ))
deriving DecidableEq, Repr

/-- Outcome of the tiered selection (lines 238-274 of `query_point`):
chosen index, selection mode string, inside flag. -/
structure Pick where
  idx : Option Nat
  selection : String
  inside : Bool
deriving DecidableEq, Repr

abbrev Results := List (String × Record)

/-- The static combine-rule table `COMBINE_RULES`. -/
def COMBINE_RULES : List (String × String) :=
  [("pga", "max"), ("ss", "max"), ("s1", "max"), ("cr1", "max"), ("crs", "max"),
   ("tl", "first"), ("v", "max"), ("inspection_area", "first")]

/-- The static unit table `UNITS`. -/
def UNITS : List (String × String) :=
  [("pga", "g"), ("ss", "g"), ("s1", "g"), ("cr1", "g"), ("crs", "g"),
   ("tl", "s"), ("v", "m/s"), ("inspection_area", "string")]

/- ---------- safe_number ----------
`safe_number` runs `re.findall(r"[-+]?\d*\.?\d+", str(val))` and converts
the first match with `float`, returning the original value when there is
no match.  The regex's leftmost-match semantics with greedy backtracking
is implemented below. -/

/-- Maximal run of leading digit characters, with the rest of the input. -/
def digitRun : List Char → List Char × List Char
  | [] => ([], [])
  | c :: cs =>
    if c.isDigit then
      let p := digitRun cs
      (c :: p.1, p.2)
    else ([], c :: cs)

/-- Match of the unsigned part `\d*\.?\d+` of the numeral regex at the
start of the input, under Python's greedy backtracking: a digit run, or
digits-dot-digits, or dot-digits; `none` when the pattern cannot match
here. -/
def matchCore (cs : List Char) : Option (List Char) :=
  let p := digitRun cs
  if p.1 = [] then
    match p.2 with
    | c :: r2 =>
      if c = '.' then
        let q := digitRun r2
        if q.1 = [] then none else some ('.' :: q.1)
      else none
    | [] => none
  else
    match p.2 with
    | c :: r2 =>
      if c = '.' then
        let q := digitRun r2
        if q.1 = [] then some p.1 else some (p.1 ++ '.' :: q.1)
      else some p.1
    | [] => some p.1

/-- Match of the full numeral regex `[-+]?\d*\.?\d+` at the start of the
input: optional sign (the sign is only consumed when a numeral follows),
then the unsigned core.  Returns (negative?, matched numeral). -/
def matchSignedAt (cs : List Char) : Option (Bool × List Char) :=
  match cs with
  | c :: rest =>
    if c = '-' then (matchCore rest).map (fun m => (true, m))
    else if c = '+' then (matchCore rest).map (fun m => (false, m))
    else (matchCore (c :: rest)).map (fun m => (false, m))
  | [] => (matchCore []).map (fun m => (false, m))

/-- Leftmost regex match: scan start positions left to right, as
`re.findall`'s first result `m[0]` does. -/
def findFirstNum : List Char → Option (Bool × List Char)
  | [] => none
  | c :: cs =>
    match matchSignedAt (c :: cs) with
    | some r => some r
    | none => findFirstNum cs

/-- Decimal digits to a natural number. -/
def digitsToNat (ds : List Char) : Nat :=
  ds.foldl (fun n c => 10 * n + (c.toNat - 48)) 0

/-- Python `float` applied to an (unsigned) matched numeral. -/
def tokenToRat (tok : List Char) : ℚ :=
  let p := digitRun tok
  match p.2 with
  | '.' :: fp => (digitsToNat p.1 : ℚ) + (digitsToNat fp : ℚ) / (10 : ℚ) ^ fp.length
  | _ => (digitsToNat p.1 : ℚ)

/-- Lines 45-50: `safe_number` — numeric coercion of attribute values. -/
def safe_number (val : String) : Value :=
  match findFirstNum val.data with
  | some (neg, tok) => Value.num ((if neg then -1 else 1) * tokenToRat tok)
  | none => Value.str val

/- ---------- distance ---------- -/

/-- Python `round(x, 3)`. -/
def round3 (x : ℚ) : ℚ := (round (x * 1000) : ℤ) / 1000

/-- Python `round(x, 6)`. -/
def round6 (x : ℚ) : ℚ := (round (x * 1000000) : ℤ) / 1000000

/-- Lines 101-107: `haversine_km` — great-circle distance on a sphere of
radius 6371.0088 km, with the float math functions taken from `ops`. -/
def haversine_km (ops : PyOps) (lat1 lon1 lat2 lon2 : ℚ) : ℚ :=
  let R : ℚ := 6371.0088
  let dlat := ops.radians (lat2 - lat1)
  let dlon := ops.radians (lon2 - lon1)
  let a := (ops.sin (dlat / 2)) ^ 2 +
    ops.cos (ops.radians lat1) * ops.cos (ops.radians lat2) * (ops.sin (dlon / 2)) ^ 2
  2 * R * ops.asin (ops.sqrt a)

/-- Lines 109-119: `point_geom_distance_km`.  A raising `covers` (modelled
by `none`, as well as a `False` result) falls through to the
`nearest_points` branch; a failure there returns `None`. -/
def point_geom_distance_km (ops : PyOps) (pt : Pt) (geom : Geom) : Option ℚ :=
  if geom.covers pt = some true then some 0
  else
    match geom.nearestPts pt with
    | some (p1, p2) => some (round3 (haversine_km ops p1.2 p1.1 p2.2 p2.1))
    | none => none

/- ---------- load phase ---------- -/

/-- Lines 130-141: `Layer.build_index`, in state-passing form.
`repairOp g` models the `try: if not g.is_valid: g = make_valid(g)`
block: `some g2` is the value after the block, `none` means the block
raised and the original geometry is kept.  `mkTree` models the
`STRtree(...)` constructor; its failure is NOT caught by the source and
propagates (`Except.error`). -/
def build_index (repairOp : Geom → Option Geom) (mkTree : List Geom → Except Unit STree)
    (L : Layer) : Except Unit Layer :=
  let fixed := L.geoms.map (fun g => (repairOp g).getD g)
  if fixed.isEmpty then
    Except.ok ⟨L.field, fixed, L.attrs, L.sources, L.strtree⟩
  else
    match mkTree fixed with
    | Except.ok t => Except.ok ⟨L.field, fixed, L.attrs, L.sources, some t⟩
    | Except.error e => Except.error e

/-- Lines 162-165: the index-build loop of `load_layers`.  The
ingestion/grouping part (filesystem glob and KML parsing) is external
I/O and is abstracted as the pre-grouped input list; this models the
final `for fld, L in layers.items(): L.build_index()` loop, which has no
exception handling around `build_index`. -/
def load_layers (repairOp : Geom → Option Geom) (mkTree : List Geom → Except Unit STree) :
    List (String × Layer) → Except Unit (List (String × Layer))
  | [] => Except.ok []
  | p :: ps =>
    match build_index repairOp mkTree p.2 with
    | Except.error e => Except.error e
    | Except.ok L2 =>
      match load_layers repairOp mkTree ps with
      | Except.error e => Except.error e
      | Except.ok rest => Except.ok ((p.1, L2) :: rest)

/- ---------- tiered selection ---------- -/

/-- The `try: raw = ... except: raw = []` pattern around an index query. -/
def rawCands (o : Option (List Nat)) : List Nat := o.getD []

/-- The guarded cover test `try: L.geoms[i].covers(pt) except: continue`
from the tier-1 loop: out-of-range indexing and a raising `covers` both
yield a non-`some true` result. -/
def coversAt (L : Layer) (pt : Pt) (i : Nat) : Option Bool :=
  (L.geoms.get? i).bind (fun g => g.covers pt)

/-- Lines 243-251: the tier-1 loop — first candidate (in index-returned
order) whose polygon covers the point. -/
def tier1 (L : Layer) (pt : Pt) : List Nat → Option Nat
  | [] => none
  | i :: rest =>
    if coversAt L pt i = some true then some i else tier1 L pt rest

/-- The distance key `L.geoms[i].distance(pt)` of the `min` calls;
`none` models either out-of-range indexing or `distance` raising. -/
def distKey (L : Layer) (pt : Pt) (i : Nat) : Option ℚ :=
  (L.geoms.get? i).bind (fun g => g.dist pt)

/-- Evaluate a key on every element, failing if any evaluation fails
(as a raising key aborts the whole Python `min`). -/
def optMap (f : Nat → Option ℚ) : List Nat → Option (List ℚ)
  | [] => some []
  | i :: is =>
    match f i, optMap f is with
    | some d, some ds => some (d :: ds)
    | _, _ => none

/-- First element attaining the minimal key, as Python `min` with strict
`<` comparison returns. -/
def minByKeyAux : List (Nat × ℚ) → Nat × ℚ → Nat
  | [], b => b.1
  | p :: rest, b => if p.2 < b.2 then minByKeyAux rest p else minByKeyAux rest b

/-- Python `min(cands, key=...)` over aligned candidate/key lists. -/
def minByKey (cands : List Nat) (ds : List ℚ) : Option Nat :=
  match cands.zip ds with
  | [] => none
  | p :: rest => some (minByKeyAux rest p)

/-- Lines 263-268: tier 3 — `min(cand_idxs, key=distance)`, falling back
to `cand_idxs[0]` when the `min` raises. -/
def tier3pick (L : Layer) (pt : Pt) (cands : List Nat) : Option Nat :=
  match optMap (distKey L pt) cands with
  | some ds => minByKey cands ds
  | none => cands.head?

/-- Lines 203-219: `_nearest_index`.  The outer `none` models the
uncaught exception when `strtree.nearest` raises (the `except TypeError`
branch retries the identical call, so a deterministic raise propagates);
`some none` models returning `None`. -/
def nearest_index (L : Layer) (pt : Pt) : Option (Option Nat) :=
  match L.strtree with
  | none => some none
  | some T =>
    if L.geoms.isEmpty then some none
    else
      match T.nearest pt with
      | none => none
      | some idxs =>
        match idxs.head? with
        | some i => some (some i)
        | none =>
          match optMap (distKey L pt) (List.range L.geoms.length) with
          | some ds => some (minByKey (List.range L.geoms.length) ds)
          | none => some none

/-- Lines 231-274: the tiered selection for one layer whose index `T` is
built.  The outer `none` models an exception propagating out of
`_nearest_index`. -/
def chooseTiered (L : Layer) (T : STree) (pt : Pt) (force_nearest : Bool) : Option Pick :=
  let cand0 := rawCands (T.queryPt pt)
  match tier1 L pt cand0 with
  | some i => some ⟨some i, "covers", true⟩
  | none =>
    let cands := if cand0.isEmpty then rawCands (T.queryEnv pt) else cand0
    if cands.isEmpty then
      if force_nearest then
        match nearest_index L pt with
        | none => none
        | some (some k) => some ⟨some k, "nearest_of_layer", false⟩
        | some none => some ⟨none, "none", false⟩
      else some ⟨none, "none", false⟩
    else
      match tier3pick L pt cands with
      | some j => some ⟨some j, "nearest_of_candidates", false⟩
      | none => some ⟨none, "nearest_of_candidates", false⟩

/- ---------- per-layer result assembly ---------- -/

/-- Python `float(value)` on a stored attribute value: floats convert to
themselves; strings go through the external `float()` builtin semantics
in `ops` (`none` models `ValueError`, caught by the combine branch). -/
def toFloat (ops : PyOps) : Value → Option ℚ
  | Value.num q => some q
  | Value.str s => ops.pyFloat s

/-- Assignment `results[field] = record` to an existing key: keys and
order are unchanged. -/
def setKey (l : Results) (field : String) (r : Record) : Results :=
  l.map (fun kv => if kv.1 = field then (kv.1, r) else kv)

/-- Lines 292-309: the combine-rule update of `results`.  `max`/`min`
skip silently when either `float()` conversion raises. -/
def updateResults (ops : PyOps) (rules : List (String × String)) (field : String)
    (record : Record) (results : Results) : Results :=
  let rule := (rules.lookup field).getD "first"
  match results.lookup field with
  | none => results ++ [(field, record)]
  | some old =>
    if rule = "max" then
      match toFloat ops record.value, toFloat ops old.value with
      | some a, some b => if b < a then setKey results field record else results
      | _, _ => results
    else if rule = "min" then
      match toFloat ops record.value, toFloat ops old.value with
      | some a, some b => if a < b then setKey results field record else results
      | _, _ => results
    else if rule = "last" then setKey results field record
    else results

/-- Lines 311-333: the debug row for a chosen polygon.  A raising
`representative_point` or `exterior` access degrades to `None`. -/
def mkDebugRow (field src : String) (value : Value) (pk : Pick) (record : Record)
    (geom : Geom) : DebugRow :=
  let centroid :=
    match geom.reprPoint with
    | some c => some (round6 c.2, round6 c.1)
    | none => none
  let sample :=
    match geom.exterior with
    | some ext =>
      some ((if ext.length ≥ 3 then ext.take 3 else ext).map (fun p => (round6 p.2, round6 p.1)))
    | none => none
  ⟨field, src, value, pk.selection, pk.inside, record.distance_km, centroid, sample⟩

/-- Lines 227-333: the body of the per-layer loop of `query_point`.
`none` models an uncaught exception (a raising `strtree.nearest`, or the
unguarded indexing `L.attrs[chosen_idx]` / `L.geoms[chosen_idx]` /
`L.sources[chosen_idx]` going out of range). -/
def processLayer (ops : PyOps) (rules units : List (String × String)) (pt : Pt)
    (force_nearest want_debug : Bool) (acc : Results × List DebugRow)
    (field : String) (L : Layer) : Option (Results × List DebugRow) :=
  match L.strtree with
  | none => some acc
  | some T =>
    match chooseTiered L T pt force_nearest with
    | none => none
    | some pk =>
      match pk.idx with
      | none => some acc
      | some ci =>
        match L.attrs.get? ci with
        | none => none
        | some amap =>
          match amap.lookup field with
          | none => some acc
          | some value =>
            match L.geoms.get? ci, L.sources.get? ci with
            | some geom, some src =>
              let record : Record :=
                ⟨value, (units.lookup field).getD "", src, point_geom_distance_km ops pt geom⟩
              let results2 := updateResults ops rules field record acc.1
              let dbg2 :=
                if want_debug then acc.2 ++ [mkDebugRow field src value pk record geom]
                else acc.2
              some (results2, dbg2)
            | _, _ => none

/-- Derived view of the per-layer loop body, used in proofs: the part of
`processLayer` that does not depend on the accumulators.  `none` =
uncaught exception, `some none` = `continue` with nothing produced,
`some (some (record, pick, geom, src))` = a record is produced.
`processLayer_eq_outcome` below proves it equivalent to `processLayer`. -/
def layerOutcome (ops : PyOps) (units : List (String × String)) (pt : Pt) (fn : Bool)
    (field : String) (L : Layer) : Option (Option (Record × Pick × Geom × String)) :=
  match L.strtree with
  | none => some none
  | some T =>
    match chooseTiered L T pt fn with
    | none => none
    | some pk =>
      match pk.idx with
      | none => some none
      | some ci =>
        match L.attrs.get? ci with
        | none => none
        | some amap =>
          match amap.lookup field with
          | none => some none
          | some value =>
            match L.geoms.get? ci, L.sources.get? ci with
            | some geom, some src =>
              some (some (⟨value, (units.lookup field).getD "", src,
                point_geom_distance_km ops pt geom⟩, pk, geom, src))
            | _, _ => none

/-- The `for field, L in LAYERS.items()` loop. -/
def runLayers (ops : PyOps) (rules units : List (String × String)) (pt : Pt)
    (force_nearest want_debug : Bool) :
    List (String × Layer) → Results × List DebugRow → Option (Results × List DebugRow)
  | [], acc => some acc
  | p :: ps, acc =>
    match processLayer ops rules units pt force_nearest want_debug acc p.1 p.2 with
    | none => none
    | some acc2 => runLayers ops rules units pt force_nearest want_debug ps acc2

/-- Lines 222-335: `query_point`.  `none` models an uncaught exception
escaping to the HTTP handler. -/
def query_point (ops : PyOps) (rules units : List (String × String))
    (LAYERS : List (String × Layer)) (lat lon : ℚ) (force_nearest want_debug : Bool) :
    Option (Results × Option (List DebugRow)) :=
  let pt : Pt := (lon, lat)
  match runLayers ops rules units pt force_nearest want_debug LAYERS ([], []) with
  | none => none
  | some acc => some (acc.1, if want_debug then some acc.2 else none)

/- ---------- explicit-state form ---------- -/

/-- The per-layer loop with the layer registry threaded as explicit
state.  The loop body only reads `L` and writes the local accumulators;
it contains no assignment to `LAYERS` or to any `Layer` attribute, so
the registry component passes through each iteration unchanged. -/
def runLayers_st (ops : PyOps) (rules units : List (String × String)) (pt : Pt)
    (force_nearest want_debug : Bool) :
    List (String × Layer) → List (String × Layer) × (Results × List DebugRow) →
    Option (List (String × Layer) × (Results × List DebugRow))
  | [], st => some st
  | p :: ps, st =>
    match processLayer ops rules units pt force_nearest want_debug st.2 p.1 p.2 with
    | none => none
    | some acc2 => runLayers_st ops rules units pt force_nearest want_debug ps (st.1, acc2)

/-- `query_point` in explicit-state form: takes the registry as state
and returns (final registry state, result). -/
def query_point_st (ops : PyOps) (rules units : List (String × String))
    (REG : List (String × Layer)) (lat lon : ℚ) (force_nearest want_debug : Bool) :
    Option (List (String × Layer) × (Results × Option (List DebugRow))) :=
  match runLayers_st ops rules units (lon, lat) force_nearest want_debug REG (REG, ([], [])) with
  | none => none
  | some st => some (st.1, (st.2.1, if want_debug then some st.2.2 else none))

/- ---------- well-formedness of the external index contract ---------- -/

/-- Every index in a (non-raising) index-query result is in range. -/
def boundedIdxs (n : Nat) (o : Option (List Nat)) : Bool :=
  match o with
  | none => true
  | some idxs => idxs.all (fun i => decide (i < n))

/-- The layer invariant established by the load phase and the index
library contract: `geoms`, `attrs`, `sources` are appended in lockstep,
and a built `STRtree` returns in-range indices (and its `nearest` does
not raise on a valid point). -/
def WFLayer (pt : Pt) (L : Layer) : Bool :=
  (L.attrs.length == L.geoms.length) &&
  (L.sources.length == L.geoms.length) &&
  (match L.strtree with
   | none => true
   | some T =>
     boundedIdxs L.geoms.length (T.queryPt pt) &&
     boundedIdxs L.geoms.length (T.queryEnv pt) &&
     (T.nearest pt).isSome &&
     boundedIdxs L.geoms.length (T.nearest pt))

/-- Layer yields no candidate for `pt`: the point bbox query and the
expanded 0.45-degree envelope re-query both come back empty (or the
layer has no index at all). -/
def nothingFound (pt : Pt) (L : Layer) : Bool :=
  match L.strtree with
  | none => true
  | some T => (rawCands (T.queryPt pt)).isEmpty && (rawCands (T.queryEnv pt)).isEmpty

/- ---------- concrete instances used in witnesses ---------- -/

/-- Float-math oracle all of whose functions return 0 and whose
`float()` on strings always raises. -/
def demoOps : PyOps := ⟨fun _ => 0, fun _ => 0, fun _ => 0, fun _ => 0, fun _ => 0, fun _ => none⟩

/-- A geometry that covers every point. -/
def gCover : Geom := ⟨fun _ => some true, fun _ => some 0, fun _ => none, none, none⟩

/-- A geometry that covers no point. -/
def gMiss : Geom := ⟨fun _ => some false, fun _ => some 1, fun _ => none, none, none⟩

/-- Index over two geometries whose point query returns both. -/
def treeAll : STree := ⟨fun _ => some [0, 1], fun _ => some [], fun _ => some [0]⟩

/-- Index over one geometry whose point query returns it. -/
def treeOne : STree := ⟨fun _ => some [0], fun _ => some [], fun _ => some [0]⟩

/-- Index whose queries all come back empty. -/
def treeEmpty : STree := ⟨fun _ => some [], fun _ => some [], fun _ => some []⟩

/-- Two-geometry layer: candidate 0 misses, candidate 1 covers. -/
def layerC1 : Layer :=
  ⟨"pga", [gMiss, gCover], [[("pga", Value.num 1)], [("pga", Value.num 2)]],
   ["a.kml", "a.kml"], some treeAll⟩

/-- One-geometry layer whose chosen polygon has no value for its field. -/
def layerC7 : Layer := ⟨"pga", [gCover], [[]], ["a.kml"], some treeOne⟩

/-- Layer whose index returns no candidates for any query. -/
def layerC5 : Layer := ⟨"pga", [gMiss], [[("pga", Value.num 1)]], ["a.kml"], some treeEmpty⟩

/-- Unindexed single-geometry layer (index construction will fail on it). -/
def layerA : Layer := ⟨"pga", [gMiss], [[("pga", Value.num 1)]], ["a.kml"], none⟩

/-- Unindexed two-geometry layer (index construction succeeds on it). -/
def layerB : Layer :=
  ⟨"v", [gMiss, gCover], [[("v", Value.num 1)], [("v", Value.num 2)]],
   ["b.kml", "b.kml"], none⟩

/-- An index constructor that raises exactly on single-element input,
modelling an index library failure during the load phase. -/
def fragileMkTree (gs : List Geom) : Except Unit STree :=
  if gs.length = 1 then Except.error () else Except.ok treeEmpty

/- ---------- lemmas about the numeral matcher ---------- -/

theorem digitRun_of_no_digit (cs : List Char) (h : ∀ c ∈ cs, c.isDigit = false) :
    digitRun cs = ([], cs) := by
  cases cs with
  | nil => rfl
  | cons c cs' =>
    have hc : c.isDigit = false := h c (List.mem_cons_self c cs')
    simp [digitRun, hc]

theorem matchCore_of_no_digit (cs : List Char) (h : ∀ c ∈ cs, c.isDigit = false) :
    matchCore cs = none := by
  cases cs with
  | nil => rfl
  | cons c r2 =>
    have hc : c.isDigit = false := h c (List.mem_cons_self c r2)
    have hr2 : ∀ x ∈ r2, x.isDigit = false := fun x hx => h x (List.mem_cons_of_mem c hx)
    by_cases hdot : c = '.'
    · subst hdot
      simp [matchCore, digitRun, hc, digitRun_of_no_digit r2 hr2]
    · simp [matchCore, digitRun, hc, hdot]

theorem matchSignedAt_of_no_digit (cs : List Char) (h : ∀ c ∈ cs, c.isDigit = false) :
    matchSignedAt cs = none := by
  cases cs with
  | nil => simp [matchSignedAt, matchCore_of_no_digit [] (by simp)]
  | cons c rest =>
    have hrest : ∀ x ∈ rest, x.isDigit = false := fun x hx => h x (List.mem_cons_of_mem c hx)
    have hall : ∀ x ∈ c :: rest, x.isDigit = false := h
    simp only [matchSignedAt]
    by_cases h1 : c = '-'
    · simp [h1, matchCore_of_no_digit rest hrest]
    · by_cases h2 : c = '+'
      · simp [h1, h2, matchCore_of_no_digit rest hrest]
      · simp [h1, h2, matchCore_of_no_digit (c :: rest) hall]

theorem findFirstNum_of_no_digit (l : List Char) (h : ∀ c ∈ l, c.isDigit = false) :
    findFirstNum l = none := by
  induction l with
  | nil => rfl
  | cons c cs ih =>
    have htail : ∀ x ∈ cs, x.isDigit = false := fun x hx => h x (List.mem_cons_of_mem c hx)
    simp [findFirstNum, matchSignedAt_of_no_digit (c :: cs) h, ih htail]

theorem matchCore_isSome_of_digit (c : Char) (cs : List Char) (h : c.isDigit = true) :
    (matchCore (c :: cs)).isSome = true := by
  simp only [matchCore, digitRun, h, if_true]
  rw [if_neg (by simp)]
  cases hr : (digitRun cs).2 with
  | nil => simp
  | cons d r2 =>
    by_cases hdot : d = '.'
    · subst hdot
      by_cases hq : (digitRun r2).1 = [] <;> simp [hq]
    · simp [hdot]

theorem findFirstNum_isSome_of_digit (l : List Char) (h : ∃ c ∈ l, c.isDigit = true) :
    (findFirstNum l).isSome = true := by
  induction l with
  | nil => simp at h
  | cons c cs ih =>
    simp only [findFirstNum]
    cases hm : matchSignedAt (c :: cs) with
    | some r => simp
    | none =>
      cases hb : c.isDigit with
      | true =>
        exfalso
        have hne1 : c ≠ '-' := by intro he; subst he; exact absurd hb (by decide)
        have hne2 : c ≠ '+' := by intro he; subst he; exact absurd hb (by decide)
        have hS := matchCore_isSome_of_digit c cs hb
        simp only [matchSignedAt, hne1, hne2, ite_false, if_neg] at hm
        cases hmc : matchCore (c :: cs) with
        | none => rw [hmc] at hS; simp at hS
        | some m => rw [hmc] at hm; simp at hm
      | false =>
        have hex : ∃ x ∈ cs, x.isDigit = true := by
          obtain ⟨x, hx, hxd⟩ := h
          rcases List.mem_cons.mp hx with he | hxs
          · subst he; rw [hb] at hxd; exact absurd hxd (by simp)
          · exact ⟨x, hxs, hxd⟩
        exact ih hex

/-- C6: numeric coercion (`safe_number`) converts the first signed or
unsigned decimal/integer numeral found in the string to a float and
returns the original value unchanged when no numeral is present; in
particular `"0.35 g" ↦ 0.35`, `"N/A" ↦ "N/A"` unchanged, `"12" ↦ 12.0`.
A numeral requires at least one digit, so "no numeral present" is
equivalent to the string containing no digit character. -/
theorem safe_number_spec :
    safe_number "0.35 g" = Value.num (35 / 100) ∧
    safe_number "N/A" = Value.str "N/A" ∧
    safe_number "12" = Value.num 12 ∧
    (∀ s : String, (∀ c ∈ s.data, c.isDigit = false) → safe_number s = Value.str s) ∧
    (∀ s : String, (∃ c ∈ s.data, c.isDigit = true) → ∃ q, safe_number s = Value.num q) := by
  refine ⟨?_, rfl, ?_, ?_, ?_⟩
  · have h : findFirstNum "0.35 g".data = some (false, ['0', '.', '3', '5']) := by decide
    have h2 : digitRun ['0', '.', '3', '5'] = (['0'], ['.', '3', '5']) := by decide
    have h3 : digitsToNat ['0'] = 0 := by decide
    have h4 : digitsToNat ['3', '5'] = 35 := by decide
    simp only [safe_number, h, tokenToRat, h2, h3, h4]
    norm_num
  · have h : findFirstNum "12".data = some (false, ['1', '2']) := by decide
    have h2 : digitRun ['1', '2'] = (['1', '2'], []) := by decide
    have h4 : digitsToNat ['1', '2'] = 12 := by decide
    simp only [safe_number, h, tokenToRat, h2, h4]
    norm_num
  · intro s hs
    simp [safe_number, findFirstNum_of_no_digit s.data hs]
  · intro s hs
    have hS := findFirstNum_isSome_of_digit s.data hs
    cases hm : findFirstNum s.data with
    | none => rw [hm] at hS; simp at hS
    | some r =>
      obtain ⟨neg, tok⟩ := r
      refine ⟨(if neg = true then -1 else 1) * tokenToRat tok, ?_⟩
      unfold safe_number
      rw [hm]

/-- Witness for C6: applying the no-digit clause at the concrete string
"abc". -/
theorem safe_number_spec_witness : safe_number "abc" = Value.str "abc" :=
  safe_number_spec.2.2.2.1 "abc" (by decide)

/-- C4: for a chosen geometry and query point, a covering geometry
reports distance exactly 0; otherwise the distance is the great-circle
(haversine, spherical radius 6371.0088 km) distance between the two
nearest points, rounded to 3 decimals; and a failing distance
computation reports null (`none`) instead of failing.  `covers pt =
some true` is shapely's boundary-inclusive containment returning True;
`nearestPts pt = none` models `nearest_points` (or the subsequent float
math) raising. -/
theorem point_geom_distance_km_spec (ops : PyOps) (g : Geom) (pt : Pt) :
    (g.covers pt = some true → point_geom_distance_km ops pt g = some 0) ∧
    (g.covers pt ≠ some true →
      (∀ p1 p2, g.nearestPts pt = some (p1, p2) →
        point_geom_distance_km ops pt g =
          some (round3 (haversine_km ops p1.2 p1.1 p2.2 p2.1))) ∧
      (g.nearestPts pt = none → point_geom_distance_km ops pt g = none)) := by
  refine ⟨fun h => ?_, fun h => ⟨fun p1 p2 hn => ?_, fun hn => ?_⟩⟩
  · simp [point_geom_distance_km, h]
  · simp [point_geom_distance_km, h, hn]
  · simp [point_geom_distance_km, h, hn]

/-- Witness for C4: the covering clause at a concrete geometry and
point. -/
theorem point_geom_distance_km_spec_witness :
    point_geom_distance_km demoOps (0, 0) gCover = some 0 :=
  (point_geom_distance_km_spec demoOps gCover (0, 0)).1 rfl

/-- C3 (code bug): `load_layers` runs `L.build_index()` with no
exception handling and `build_index` does not guard the `STRtree(...)`
constructor, so when index construction fails for one field the
exception propagates out of the whole load phase: NO field loads, not
just the failing one.  First conjunct: with a registry of two fields
where index construction fails only for the first (`fragileMkTree`
raises exactly on `layerA`'s single-geometry list), the load phase
returns the propagated error and produces no registry.  Second
conjunct: the healthy field alone would have loaded fine. -/
theorem load_layers_single_index_failure :
    load_layers some fragileMkTree [("pga", layerA), ("v", layerB)] = Except.error () ∧
    load_layers some fragileMkTree [("v", layerB)] =
      Except.ok [("v", ⟨"v", layerB.geoms, layerB.attrs, layerB.sources, some treeEmpty⟩)] :=
  ⟨rfl, rfl⟩

/- ---------- assoc-list helper lemmas ---------- -/

theorem lookup_append_of_none (l1 l2 : Results) (F : String) (h : l1.lookup F = none) :
    (l1 ++ l2).lookup F = l2.lookup F := by
  induction l1 with
  | nil => rfl
  | cons kv tl ih =>
    obtain ⟨k, v⟩ := kv
    by_cases hk : F = k
    · exfalso
      simp [List.lookup, hk] at h
    · have hk' : (F == k) = false := by simp [hk]
      simp only [List.lookup, hk'] at h
      simpa [List.cons_append, List.lookup, hk'] using ih h

theorem lookup_append_of_some (l1 l2 : Results) (F : String) (v : Record)
    (h : l1.lookup F = some v) : (l1 ++ l2).lookup F = some v := by
  induction l1 with
  | nil => simp [List.lookup] at h
  | cons kv tl ih =>
    obtain ⟨k, w⟩ := kv
    by_cases hk : F = k
    · have hk' : (F == k) = true := by simp [hk]
      simp only [List.lookup, hk'] at h
      simpa [List.cons_append, List.lookup, hk'] using h
    · have hk' : (F == k) = false := by simp [hk]
      simp only [List.lookup, hk'] at h
      simpa [List.cons_append, List.lookup, hk'] using ih h

theorem lookup_singleton_ne (f F : String) (r : Record) (h : F ≠ f) :
    ([(f, r)] : Results).lookup F = none := by
  have hk' : (F == f) = false := by simp [h]
  simp [List.lookup, hk']

theorem lookup_singleton_self (f : String) (r : Record) :
    ([(f, r)] : Results).lookup f = some r := by
  simp [List.lookup]

theorem lookup_eq_none_of_not_mem (l : Results) (F : String) (h : F ∉ l.map Prod.fst) :
    l.lookup F = none := by
  induction l with
  | nil => rfl
  | cons kv tl ih =>
    obtain ⟨k, v⟩ := kv
    simp only [List.map_cons, List.mem_cons] at h
    push_neg at h
    have hk' : (F == k) = false := by simp [h.1]
    simp [List.lookup, hk', ih h.2]

theorem setKey_map_fst (l : Results) (f : String) (r : Record) :
    (setKey l f r).map Prod.fst = l.map Prod.fst := by
  induction l with
  | nil => rfl
  | cons kv tl ih =>
    obtain ⟨k, v⟩ := kv
    by_cases hk : k = f <;> simp [setKey, hk] at ih ⊢ <;> exact ih

theorem setKey_lookup_ne (l : Results) (f F : String) (r : Record) (h : F ≠ f) :
    (setKey l f r).lookup F = l.lookup F := by
  induction l with
  | nil => rfl
  | cons kv tl ih =>
    obtain ⟨k, v⟩ := kv
    simp only [setKey, List.map_cons] at ih ⊢
    by_cases hk : k = f
    · have hk' : (F == k) = false := by
        have h2 : F ≠ k := by rw [hk]; exact h
        simp [h2]
      rw [if_pos (by simpa using hk)]
      simp only [List.lookup, hk']
      exact ih
    · rw [if_neg (by simpa using hk)]
      cases hb : (F == k) with
      | true => simp only [List.lookup, hb]
      | false => simp only [List.lookup, hb]; exact ih

/- ---------- updateResults lemmas ---------- -/

theorem updateResults_fresh (ops : PyOps) (rules : List (String × String)) (f : String)
    (r : Record) (l : Results) (h : l.lookup f = none) :
    updateResults ops rules f r l = l ++ [(f, r)] := by
  simp only [updateResults, h]

theorem updateResults_cases (ops : PyOps) (rules : List (String × String)) (f : String)
    (r : Record) (l : Results) :
    updateResults ops rules f r l = l ++ [(f, r)] ∨
    updateResults ops rules f r l = l ∨
    updateResults ops rules f r l = setKey l f r := by
  unfold updateResults
  cases l.lookup f with
  | none => exact Or.inl rfl
  | some old =>
    right
    dsimp only
    split_ifs with h1 h2 h3
    · cases toFloat ops r.value with
      | none => cases toFloat ops old.value <;> exact Or.inl rfl
      | some a =>
        cases toFloat ops old.value with
        | none => exact Or.inl rfl
        | some b =>
          dsimp only
          split_ifs with hlt
          · exact Or.inr rfl
          · exact Or.inl rfl
    · cases toFloat ops r.value with
      | none => cases toFloat ops old.value <;> exact Or.inl rfl
      | some a =>
        cases toFloat ops old.value with
        | none => exact Or.inl rfl
        | some b =>
          dsimp only
          split_ifs with hlt
          · exact Or.inr rfl
          · exact Or.inl rfl
    · exact Or.inr rfl
    · exact Or.inl rfl

theorem updateResults_lookup_ne (ops : PyOps) (rules : List (String × String)) (f F : String)
    (r : Record) (l : Results) (hF : F ≠ f) :
    (updateResults ops rules f r l).lookup F = l.lookup F := by
  rcases updateResults_cases ops rules f r l with h | h | h
  · rw [h]
    cases hl : l.lookup F with
    | some v => exact lookup_append_of_some _ _ _ _ hl
    | none => rw [lookup_append_of_none _ _ _ hl, lookup_singleton_ne _ _ _ hF]
  · rw [h]
  · rw [h]
    exact setKey_lookup_ne _ _ _ _ hF

theorem updateResults_map_fst (ops : PyOps) (rules : List (String × String)) (f : String)
    (r : Record) (l : Results) :
    (updateResults ops rules f r l).map Prod.fst = l.map Prod.fst ∨
    (updateResults ops rules f r l).map Prod.fst = l.map Prod.fst ++ [f] := by
  rcases updateResults_cases ops rules f r l with h | h | h <;> rw [h]
  · right; simp
  · left; rfl
  · left; exact setKey_map_fst _ _ _

/- ---------- processLayer decomposition ---------- -/

theorem processLayer_eq_outcome (ops : PyOps) (rules units : List (String × String))
    (pt : Pt) (fn dbg : Bool) (acc : Results × List DebugRow) (field : String) (L : Layer) :
    processLayer ops rules units pt fn dbg acc field L =
      match layerOutcome ops units pt fn field L with
      | none => none
      | some none => some acc
      | some (some (rec, pk, geom, src)) =>
        some (updateResults ops rules field rec acc.1,
          if dbg then acc.2 ++ [mkDebugRow field src rec.value pk rec geom] else acc.2) := by
  cases hT : L.strtree with
  | none => simp only [processLayer, layerOutcome, hT]
  | some T =>
    cases hC : chooseTiered L T pt fn with
    | none => simp only [processLayer, layerOutcome, hT, hC]
    | some pk =>
      cases hidx : pk.idx with
      | none => simp only [processLayer, layerOutcome, hT, hC, hidx]
      | some ci =>
        cases hA : L.attrs.get? ci with
        | none => simp only [processLayer, layerOutcome, hT, hC, hidx, hA]
        | some amap =>
          cases hv : amap.lookup field with
          | none => simp only [processLayer, layerOutcome, hT, hC, hidx, hA, hv]
          | some value =>
            cases hG : L.geoms.get? ci with
            | none =>
              cases hS : L.sources.get? ci <;>
                simp only [processLayer, layerOutcome, hT, hC, hidx, hA, hv, hG, hS]
            | some geom =>
              cases hS : L.sources.get? ci with
              | none => simp only [processLayer, layerOutcome, hT, hC, hidx, hA, hv, hG, hS]
              | some src => simp only [processLayer, layerOutcome, hT, hC, hidx, hA, hv, hG, hS]

/- ---------- tiered-selection lemmas ---------- -/

theorem tier1_mem (L : Layer) (pt : Pt) (l : List Nat) (i : Nat) (h : tier1 L pt l = some i) :
    i ∈ l := by
  induction l with
  | nil => simp [tier1] at h
  | cons a tl ih =>
    by_cases hc : coversAt L pt a = some true
    · simp only [tier1, hc, if_pos] at h
      simp only [Option.some.injEq] at h
      exact h ▸ List.mem_cons_self a tl
    · rw [tier1, if_neg hc] at h
      exact List.mem_cons_of_mem a (ih h)

theorem tier1_first (L : Layer) (pt : Pt) (l1 l2 : List Nat) (i : Nat)
    (h1 : ∀ j ∈ l1, coversAt L pt j ≠ some true) (hc : coversAt L pt i = some true) :
    tier1 L pt (l1 ++ i :: l2) = some i := by
  induction l1 with
  | nil => simp [tier1, hc]
  | cons a tl ih =>
    have ha := h1 a (List.mem_cons_self a tl)
    rw [List.cons_append, tier1, if_neg ha]
    exact ih (fun j hj => h1 j (List.mem_cons_of_mem a hj))

theorem optMap_length (f : Nat → Option ℚ) (l : List Nat) (ds : List ℚ)
    (h : optMap f l = some ds) : ds.length = l.length := by
  induction l generalizing ds with
  | nil =>
    simp only [optMap, Option.some.injEq] at h
    simp [← h]
  | cons a tl ih =>
    simp only [optMap] at h
    cases hf : f a with
    | none => rw [hf] at h; exact absurd h (by simp)
    | some d =>
      rw [hf] at h
      cases ho : optMap f tl with
      | none => rw [ho] at h; exact absurd h (by simp)
      | some ds2 =>
        rw [ho] at h
        simp only [Option.some.injEq] at h
        subst h
        simp [ih ds2 ho]

theorem minByKeyAux_mem (l : List (Nat × ℚ)) : ∀ b : Nat × ℚ,
    ∃ p, (p = b ∨ p ∈ l) ∧ minByKeyAux l b = p.1 := by
  induction l with
  | nil => exact fun b => ⟨b, Or.inl rfl, rfl⟩
  | cons q tl ih =>
    intro b
    by_cases hlt : q.2 < b.2
    · obtain ⟨p, hp, he⟩ := ih q
      refine ⟨p, ?_, by simp [minByKeyAux, hlt, he]⟩
      rcases hp with h | h
      · exact Or.inr (h ▸ List.mem_cons_self q tl)
      · exact Or.inr (List.mem_cons_of_mem q h)
    · obtain ⟨p, hp, he⟩ := ih b
      refine ⟨p, ?_, by simp [minByKeyAux, hlt, he]⟩
      rcases hp with h | h
      · exact Or.inl h
      · exact Or.inr (List.mem_cons_of_mem q h)

theorem minByKey_mem (c : List Nat) (d : List ℚ) (j : Nat) (h : minByKey c d = some j) :
    j ∈ c := by
  unfold minByKey at h
  cases hz : c.zip d with
  | nil => rw [hz] at h; exact absurd h (by simp)
  | cons p rest =>
    rw [hz] at h
    simp only [Option.some.injEq] at h
    obtain ⟨q, hq, he⟩ := minByKeyAux_mem rest p
    have hqz : q ∈ c.zip d := by
      rw [hz]
      rcases hq with h2 | h2
      · exact h2 ▸ List.mem_cons_self p rest
      · exact List.mem_cons_of_mem p h2
    have hm := List.of_mem_zip (by exact (Prod.mk.eta (p := q)) ▸ hqz)
    rw [← h, he]
    exact hm.1

theorem zip_ne_nil_of_length (c : List Nat) (d : List ℚ) (hc : c ≠ [])
    (hl : d.length = c.length) : c.zip d ≠ [] := by
  cases c with
  | nil => exact absurd rfl hc
  | cons a tl =>
    cases d with
    | nil => simp at hl
    | cons b td => simp

theorem tier3pick_sound (L : Layer) (pt : Pt) (c : List Nat) (hne : c ≠ []) :
    ∃ j, tier3pick L pt c = some j ∧ j ∈ c := by
  unfold tier3pick
  cases ho : optMap (distKey L pt) c with
  | none =>
    cases c with
    | nil => exact absurd rfl hne
    | cons a tl => exact ⟨a, rfl, List.mem_cons_self a tl⟩
  | some ds =>
    have hlen := optMap_length _ _ _ ho
    cases hz : c.zip ds with
    | nil => exact absurd hz (zip_ne_nil_of_length c ds hne hlen)
    | cons p rest =>
      have hm : minByKey c ds = some (minByKeyAux rest p) := by
        unfold minByKey
        rw [hz]
      exact ⟨minByKeyAux rest p, hm, minByKey_mem _ _ _ hm⟩

theorem boundedIdxs_spec (n : Nat) (o : Option (List Nat)) (h : boundedIdxs n o = true) :
    ∀ i ∈ rawCands o, i < n := by
  cases o with
  | none => intro i hi; simp [rawCands] at hi
  | some idxs =>
    intro i hi
    simp only [boundedIdxs, List.all_eq_true, decide_eq_true_eq] at h
    exact h i (by simpa [rawCands] using hi)

theorem nearest_index_sound (L : Layer) (pt : Pt) (T : STree) (hT : L.strtree = some T)
    (hn : (T.nearest pt).isSome = true)
    (hnb : boundedIdxs L.geoms.length (T.nearest pt) = true) :
    ∃ o, nearest_index L pt = some o ∧ ∀ k, o = some k → k < L.geoms.length := by
  unfold nearest_index
  rw [hT]
  dsimp only
  by_cases hg : L.geoms.isEmpty = true
  · rw [if_pos hg]
    exact ⟨none, rfl, fun k hk => absurd hk (by simp)⟩
  · rw [if_neg hg]
    cases hne : T.nearest pt with
    | none => rw [hne] at hn; simp at hn
    | some idxs =>
      cases idxs with
      | cons i rest =>
        refine ⟨some i, rfl, ?_⟩
        intro k hk
        have hik : i = k := by simpa using hk
        subst hik
        rw [hne] at hnb
        exact boundedIdxs_spec _ _ hnb i (by simp [rawCands])
      | nil =>
        cases ho : optMap (distKey L pt) (List.range L.geoms.length) with
        | none => exact ⟨none, rfl, fun k hk => absurd hk (by simp)⟩
        | some ds =>
          refine ⟨minByKey (List.range L.geoms.length) ds, rfl, ?_⟩
          intro k hk
          have := minByKey_mem _ _ _ hk
          simpa using List.mem_range.mp this

theorem chooseTiered_sound (L : Layer) (T : STree) (pt : Pt) (fn : Bool)
    (hT : L.strtree = some T)
    (hq : boundedIdxs L.geoms.length (T.queryPt pt) = true)
    (he : boundedIdxs L.geoms.length (T.queryEnv pt) = true)
    (hn : (T.nearest pt).isSome = true)
    (hnb : boundedIdxs L.geoms.length (T.nearest pt) = true) :
    ∃ pk, chooseTiered L T pt fn = some pk ∧
      ∀ ci, pk.idx = some ci → ci < L.geoms.length := by
  unfold chooseTiered
  dsimp only
  cases h1 : tier1 L pt (rawCands (T.queryPt pt)) with
  | some i =>
    refine ⟨⟨some i, "covers", true⟩, rfl, ?_⟩
    intro ci hci
    have : i = ci := by simpa using hci
    subst this
    exact boundedIdxs_spec _ _ hq i (tier1_mem _ _ _ _ h1)
  | none =>
    by_cases hc0 : (rawCands (T.queryPt pt)).isEmpty = true
    · rw [if_pos hc0]
      by_cases hce : (rawCands (T.queryEnv pt)).isEmpty = true
      · rw [if_pos hce]
        cases fn with
        | false =>
          refine ⟨⟨none, "none", false⟩, ?_, fun k hk => absurd hk (by simp)⟩
          simp
        | true =>
          rw [if_pos rfl]
          obtain ⟨o, ho, hob⟩ := nearest_index_sound L pt T hT hn hnb
          rw [ho]
          cases o with
          | some k =>
            refine ⟨⟨some k, "nearest_of_layer", false⟩, rfl, ?_⟩
            intro ci hci
            have : k = ci := by simpa using hci
            subst this
            exact hob k rfl
          | none => exact ⟨⟨none, "none", false⟩, rfl, fun k hk => absurd hk (by simp)⟩
      · rw [if_neg hce]
        have hcne : rawCands (T.queryEnv pt) ≠ [] := by
          intro hnil; rw [hnil] at hce; simp at hce
        obtain ⟨j, hj, hjm⟩ := tier3pick_sound L pt _ hcne
        rw [hj]
        refine ⟨⟨some j, "nearest_of_candidates", false⟩, rfl, ?_⟩
        intro ci hci
        have : j = ci := by simpa using hci
        subst this
        exact boundedIdxs_spec _ _ he j hjm
    · rw [if_neg hc0, if_neg hc0]
      have hcne : rawCands (T.queryPt pt) ≠ [] := by
        intro hnil; rw [hnil] at hc0; simp at hc0
      obtain ⟨j, hj, hjm⟩ := tier3pick_sound L pt _ hcne
      rw [hj]
      refine ⟨⟨some j, "nearest_of_candidates", false⟩, rfl, ?_⟩
      intro ci hci
      have : j = ci := by simpa using hci
      subst this
      exact boundedIdxs_spec _ _ hq j hjm

theorem chooseTiered_skip (L : Layer) (T : STree) (pt : Pt)
    (h1 : rawCands (T.queryPt pt) = []) (h2 : rawCands (T.queryEnv pt) = []) :
    chooseTiered L T pt false = some (Pick.mk none "none" false) := by
  unfold chooseTiered
  rw [h1]
  simp [tier1, h2]

/- ---------- C1 and C7 ---------- -/

/-- C1: for every query point and every layer with a built index, if the
bounding-box candidate set returned by the index (in index-returned
order, here `rawCands (T.queryPt pt) = l1 ++ i :: l2`) contains a
candidate `i` whose polygon covers the point while no earlier candidate
does, then the tiered selection chooses exactly that first covering
candidate, with selection mode `"covers"` and `inside = true`.  `covers`
is shapely's boundary-inclusive containment, so the hypothesis
`coversAt L pt i = some true` also holds for a point exactly on the
polygon boundary. -/
theorem covers_first_choice (L : Layer) (T : STree) (pt : Pt) (fn : Bool)
    (l1 l2 : List Nat) (i : Nat)
    (hq : rawCands (T.queryPt pt) = l1 ++ i :: l2)
    (h1 : ∀ j ∈ l1, coversAt L pt j ≠ some true)
    (hc : coversAt L pt i = some true) :
    chooseTiered L T pt fn = some (Pick.mk (some i) "covers" true) := by
  unfold chooseTiered
  dsimp only
  rw [hq, tier1_first L pt l1 l2 i h1 hc]

/-- Witness for C1: on a concrete two-polygon layer where candidate 0
misses and candidate 1 covers, the selection picks candidate 1 with mode
`"covers"` and `inside = true`. -/
theorem covers_first_choice_witness :
    chooseTiered layerC1 treeAll (0, 0) true = some (Pick.mk (some 1) "covers" true) :=
  covers_first_choice layerC1 treeAll (0, 0) true [0] [] 1 rfl (by decide) (by decide)

/-- C7: if the tiered algorithm chooses a geometry whose attribute map
has no value for the queried field, the per-layer step leaves the
results and the debug rows exactly as they were — the same outcome as
when no geometry is chosen at all (first conjunct); a chosen geometry
without a value never produces a result entry. -/
theorem chosen_without_value_omitted (ops : PyOps) (rules units : List (String × String))
    (pt : Pt) (fn dbg : Bool) (acc : Results × List DebugRow) (field : String)
    (L : Layer) (T : STree) (pk : Pick)
    (ht : L.strtree = some T) (hch : chooseTiered L T pt fn = some pk) :
    (pk.idx = none → processLayer ops rules units pt fn dbg acc field L = some acc) ∧
    (∀ ci amap, pk.idx = some ci → L.attrs.get? ci = some amap →
      amap.lookup field = none →
      processLayer ops rules units pt fn dbg acc field L = some acc) := by
  constructor
  · intro hidx
    simp only [processLayer, ht, hch, hidx]
  · intro ci amap hidx ha hv
    simp only [processLayer, ht, hch, hidx, ha, hv]

/-- Witness for C7: a concrete layer whose chosen polygon's attribute
map is empty leaves the accumulators untouched. -/
theorem chosen_without_value_omitted_witness :
    processLayer demoOps [] [] (0, 0) true false ([], []) "pga" layerC7 = some ([], []) :=
  (chosen_without_value_omitted demoOps [] [] (0, 0) true false ([], []) "pga" layerC7
    treeOne (Pick.mk (some 0) "covers" true) rfl (by decide)).2 0 [] rfl rfl rfl

/- ---------- totality of the per-layer step under the index contract ---------- -/

theorem get?_isSome_of_lt {A : Type} (l : List A) (n : Nat) (h : n < l.length) :
    ∃ a, l.get? n = some a := by
  cases hg : l.get? n with
  | some a => exact ⟨a, rfl⟩
  | none => exact absurd (List.get?_eq_none.mp hg) (by omega)

theorem processLayer_total (ops : PyOps) (rules units : List (String × String)) (pt : Pt)
    (fn dbg : Bool) (acc : Results × List DebugRow) (field : String) (L : Layer)
    (hwf : WFLayer pt L = true) :
    (processLayer ops rules units pt fn dbg acc field L).isSome = true := by
  cases hT : L.strtree with
  | none => simp [processLayer, hT]
  | some T =>
    simp only [WFLayer, hT, Bool.and_eq_true, beq_iff_eq] at hwf
    obtain ⟨⟨hlen1, hlen2⟩, ⟨⟨hq, he⟩, hn⟩, hnb⟩ := hwf
    obtain ⟨pk, hpk, hbound⟩ := chooseTiered_sound L T pt fn hT hq he hn hnb
    cases hidx : pk.idx with
    | none => simp only [processLayer, hT, hpk, hidx, Option.isSome_some]
    | some ci =>
      have hci : ci < L.geoms.length := hbound ci hidx
      obtain ⟨amap, hA⟩ := get?_isSome_of_lt L.attrs ci (by omega)
      obtain ⟨geom, hG⟩ := get?_isSome_of_lt L.geoms ci hci
      obtain ⟨src, hS⟩ := get?_isSome_of_lt L.sources ci (by omega)
      cases hv : amap.lookup field with
      | none => simp only [processLayer, hT, hpk, hidx, hA, hv, Option.isSome_some]
      | some value =>
        simp only [processLayer, hT, hpk, hidx, hA, hv, hG, hS, Option.isSome_some]

theorem runLayers_total (ops : PyOps) (rules units : List (String × String)) (pt : Pt)
    (fn dbg : Bool) :
    ∀ (ps : List (String × Layer)) (acc : Results × List DebugRow),
    (∀ p ∈ ps, WFLayer pt p.2 = true) →
    (runLayers ops rules units pt fn dbg ps acc).isSome = true := by
  intro ps
  induction ps with
  | nil => intro acc h; simp [runLayers]
  | cons p tl ih =>
    intro acc h
    have hp := processLayer_total ops rules units pt fn dbg acc p.1 p.2
      (h p (List.mem_cons_self p tl))
    cases hpl : processLayer ops rules units pt fn dbg acc p.1 p.2 with
    | none => rw [hpl] at hp; simp at hp
    | some acc2 =>
      simp only [runLayers, hpl]
      exact ih acc2 (fun q hq => h q (List.mem_cons_of_mem p hq))

theorem processLayer_skip (ops : PyOps) (rules units : List (String × String)) (pt : Pt)
    (dbg : Bool) (acc : Results × List DebugRow) (field : String) (L : Layer)
    (hnf : nothingFound pt L = true) :
    processLayer ops rules units pt false dbg acc field L = some acc := by
  cases hT : L.strtree with
  | none => simp [processLayer, hT]
  | some T =>
    simp only [nothingFound, hT, Bool.and_eq_true, List.isEmpty_iff] at hnf
    have hch := chooseTiered_skip L T pt hnf.1 hnf.2
    simp only [processLayer, hT, hch]

theorem runLayers_skip_all (ops : PyOps) (rules units : List (String × String)) (pt : Pt)
    (dbg : Bool) :
    ∀ (ps : List (String × Layer)) (acc : Results × List DebugRow),
    (∀ p ∈ ps, nothingFound pt p.2 = true) →
    runLayers ops rules units pt false dbg ps acc = some acc := by
  intro ps
  induction ps with
  | nil => intro acc h; rfl
  | cons p tl ih =>
    intro acc h
    simp only [runLayers,
      processLayer_skip ops rules units pt dbg acc p.1 p.2 (h p (List.mem_cons_self p tl))]
    exact ih acc (fun q hq => h q (List.mem_cons_of_mem p hq))

/-- C2: `query_point` returns normally — never raises — for any finite
float inputs and flag values, provided each layer satisfies the load
phase/index-library contract (`WFLayer`: `geoms`, `attrs`, `sources`
built in lockstep and the index returning in-range indices); and the
returned `values` mapping is empty when no layer is loaded, or when
nothing is found anywhere and nearest-fallback is disabled. -/
theorem query_point_never_raises (ops : PyOps) (rules units : List (String × String))
    (LAYERS : List (String × Layer)) (lat lon : ℚ) (fn dbg : Bool)
    (hwf : ∀ p ∈ LAYERS, WFLayer (lon, lat) p.2 = true) :
    (query_point ops rules units LAYERS lat lon fn dbg).isSome = true ∧
    (LAYERS = [] → query_point ops rules units LAYERS lat lon fn dbg =
      some ([], if dbg then some [] else none)) ∧
    (fn = false → (∀ p ∈ LAYERS, nothingFound (lon, lat) p.2 = true) →
      query_point ops rules units LAYERS lat lon fn dbg =
        some ([], if dbg then some [] else none)) := by
  refine ⟨?_, ?_, ?_⟩
  · have hr := runLayers_total ops rules units (lon, lat) fn dbg LAYERS ([], []) hwf
    unfold query_point
    dsimp only
    cases hrl : runLayers ops rules units (lon, lat) fn dbg LAYERS ([], []) with
    | none => rw [hrl] at hr; simp at hr
    | some acc => simp [hrl]
  · intro h
    subst h
    rfl
  · intro hfn hnf
    subst hfn
    unfold query_point
    dsimp only
    rw [runLayers_skip_all ops rules units (lon, lat) dbg LAYERS ([], []) hnf]

/-- Witness for C2: a concrete one-layer registry satisfying the
contract; the query returns normally. -/
theorem query_point_never_raises_witness :
    (query_point demoOps [] [] [("pga", layerC1)] 0 0 false false).isSome = true :=
  (query_point_never_raises demoOps [] [] [("pga", layerC1)] 0 0 false false
    (by decide)).1

/- ---------- key tracking across the layer loop ---------- -/

theorem processLayer_keys (ops : PyOps) (rules units : List (String × String)) (pt : Pt)
    (fn dbg : Bool) (acc : Results × List DebugRow) (field : String) (L : Layer)
    (acc2 : Results × List DebugRow)
    (h : processLayer ops rules units pt fn dbg acc field L = some acc2) :
    acc2.1.map Prod.fst = acc.1.map Prod.fst ∨
    acc2.1.map Prod.fst = acc.1.map Prod.fst ++ [field] := by
  rw [processLayer_eq_outcome] at h
  cases ho : layerOutcome ops units pt fn field L with
  | none => rw [ho] at h; exact absurd h (by simp)
  | some oo =>
    rw [ho] at h
    cases oo with
    | none =>
      simp only [Option.some.injEq] at h
      rw [← h]
      exact Or.inl rfl
    | some t =>
      obtain ⟨rec, pk, geom, src⟩ := t
      simp only [Option.some.injEq] at h
      rw [← h]
      exact updateResults_map_fst ops rules field rec acc.1

theorem runLayers_key_absent (ops : PyOps) (rules units : List (String × String)) (pt : Pt)
    (dbg : Bool) (F : String) :
    ∀ (ps : List (String × Layer)) (acc : Results × List DebugRow),
    (∀ p ∈ ps, p.1 = F → nothingFound pt p.2 = true) →
    F ∉ acc.1.map Prod.fst →
    ∀ res, runLayers ops rules units pt false dbg ps acc = some res →
    F ∉ res.1.map Prod.fst := by
  intro ps
  induction ps with
  | nil =>
    intro acc h hF res hr
    simp only [runLayers, Option.some.injEq] at hr
    rw [← hr]
    exact hF
  | cons p tl ih =>
    intro acc h hF res hr
    simp only [runLayers] at hr
    cases hp : processLayer ops rules units pt false dbg acc p.1 p.2 with
    | none => rw [hp] at hr; exact absurd hr (by simp)
    | some acc2 =>
      rw [hp] at hr
      by_cases hpf : p.1 = F
      · have hskip := processLayer_skip ops rules units pt dbg acc p.1 p.2
          (h p (List.mem_cons_self p tl) hpf)
        rw [hskip] at hp
        simp only [Option.some.injEq] at hp
        rw [← hp] at hr
        exact ih acc (fun q hq hq2 => h q (List.mem_cons_of_mem p hq) hq2) hF res hr
      · have hnext : F ∉ acc2.1.map Prod.fst := by
          rcases processLayer_keys ops rules units pt false dbg acc p.1 p.2 acc2 hp with hk | hk
          · rw [hk]; exact hF
          · rw [hk]
            simp only [List.mem_append, List.mem_singleton]
            push_neg
            exact ⟨hF, fun he => hpf he.symm⟩
        exact ih acc2 (fun q hq hq2 => h q (List.mem_cons_of_mem p hq) hq2) hnext res hr

/-- C5: with nearest-fallback disabled, if for field `F` the layer
registry's `F`-layer produces no candidates — the point bbox query is
empty and the expanded 0.45-degree envelope re-query is empty too (and
hence no covering polygon exists among the candidates) — then `F` is
entirely absent from the returned values mapping. -/
theorem fallback_disabled_omits_field (ops : PyOps) (rules units : List (String × String))
    (LAYERS : List (String × Layer)) (lat lon : ℚ) (dbg : Bool) (F : String)
    (h : ∀ p ∈ LAYERS, p.1 = F → nothingFound (lon, lat) p.2 = true) :
    ∀ res, query_point ops rules units LAYERS lat lon false dbg = some res →
      F ∉ res.1.map Prod.fst ∧ res.1.lookup F = none := by
  intro res hq
  unfold query_point at hq
  dsimp only at hq
  cases hr : runLayers ops rules units (lon, lat) false dbg LAYERS ([], []) with
  | none => rw [hr] at hq; exact absurd hq (by simp)
  | some acc =>
    rw [hr] at hq
    simp only [Option.some.injEq] at hq
    have hmem := runLayers_key_absent ops rules units (lon, lat) dbg F LAYERS ([], [])
      h (by simp) acc hr
    have hres : res.1 = acc.1 := by rw [← hq]
    rw [hres]
    exact ⟨hmem, lookup_eq_none_of_not_mem _ _ hmem⟩

/-- Witness for C5: a concrete layer whose index returns no candidates,
queried with nearest-fallback disabled, leaves its field out of the
result. -/
theorem fallback_disabled_omits_field_witness :
    "pga" ∉ (([] : Results)).map Prod.fst ∧ ([] : Results).lookup "pga" = none :=
  fallback_disabled_omits_field demoOps [] [] [("pga", layerC5)] 0 0 false "pga"
    (by decide) ([], none) rfl

/- ---------- combine-rule independence and per-field record ---------- -/

theorem processLayer_rules_indep (ops : PyOps) (rules rules' units : List (String × String))
    (pt : Pt) (fn dbg : Bool) (acc : Results × List DebugRow) (field : String) (L : Layer)
    (h : acc.1.lookup field = none) :
    processLayer ops rules units pt fn dbg acc field L =
    processLayer ops rules' units pt fn dbg acc field L := by
  rw [processLayer_eq_outcome ops rules units pt fn dbg acc field L,
    processLayer_eq_outcome ops rules' units pt fn dbg acc field L]
  cases ho : layerOutcome ops units pt fn field L with
  | none => rfl
  | some oo =>
    cases oo with
    | none => rfl
    | some t =>
      obtain ⟨rec, pk, geom, src⟩ := t
      simp only [updateResults_fresh ops rules field rec acc.1 h,
        updateResults_fresh ops rules' field rec acc.1 h]

theorem processLayer_lookup_preserve (ops : PyOps) (rules units : List (String × String))
    (pt : Pt) (fn dbg : Bool) (acc : Results × List DebugRow) (field F : String) (L : Layer)
    (acc2 : Results × List DebugRow) (hne : F ≠ field)
    (h : processLayer ops rules units pt fn dbg acc field L = some acc2) :
    acc2.1.lookup F = acc.1.lookup F := by
  rw [processLayer_eq_outcome] at h
  cases ho : layerOutcome ops units pt fn field L with
  | none => rw [ho] at h; exact absurd h (by simp)
  | some oo =>
    rw [ho] at h
    cases oo with
    | none =>
      simp only [Option.some.injEq] at h
      rw [← h]
    | some t =>
      obtain ⟨rec, pk, geom, src⟩ := t
      simp only [Option.some.injEq] at h
      rw [← h]
      exact updateResults_lookup_ne ops rules field F rec acc.1 hne

theorem processLayer_solo (ops : PyOps) (rules units : List (String × String))
    (pt : Pt) (fn dbg : Bool) (acc : Results × List DebugRow) (field : String) (L : Layer)
    (acc2 : Results × List DebugRow) (hfresh : acc.1.lookup field = none)
    (h : processLayer ops rules units pt fn dbg acc field L = some acc2) :
    ∃ solo, processLayer ops rules units pt fn dbg ([], []) field L = some solo ∧
      acc2.1.lookup field = solo.1.lookup field := by
  rw [processLayer_eq_outcome ops rules units pt fn dbg acc field L] at h
  rw [processLayer_eq_outcome ops rules units pt fn dbg ([], []) field L]
  cases ho : layerOutcome ops units pt fn field L with
  | none => rw [ho] at h; exact absurd h (by simp)
  | some oo =>
    rw [ho] at h
    cases oo with
    | none =>
      simp only [Option.some.injEq] at h
      refine ⟨([], []), rfl, ?_⟩
      rw [← h]
      simpa using hfresh
    | some t =>
      obtain ⟨rec, pk, geom, src⟩ := t
      simp only [Option.some.injEq] at h
      refine ⟨_, rfl, ?_⟩
      rw [← h]
      have h1 : (updateResults ops rules field rec acc.1).lookup field = some rec := by
        rw [updateResults_fresh ops rules field rec acc.1 hfresh,
          lookup_append_of_none _ _ _ hfresh, lookup_singleton_self]
      have h2 : (updateResults ops rules field rec ([] : Results)).lookup field = some rec := by
        rw [updateResults_fresh ops rules field rec ([] : Results) rfl]
        exact lookup_singleton_self field rec
      simp only [h1]
      exact h2.symm

theorem runLayers_preserve_lookup (ops : PyOps) (rules units : List (String × String))
    (pt : Pt) (fn dbg : Bool) (F : String) :
    ∀ (ps : List (String × Layer)) (acc : Results × List DebugRow),
    (∀ q ∈ ps, q.1 ≠ F) →
    ∀ res, runLayers ops rules units pt fn dbg ps acc = some res →
    res.1.lookup F = acc.1.lookup F := by
  intro ps
  induction ps with
  | nil =>
    intro acc h res hr
    simp only [runLayers, Option.some.injEq] at hr
    rw [← hr]
  | cons p tl ih =>
    intro acc h res hr
    simp only [runLayers] at hr
    cases hp : processLayer ops rules units pt fn dbg acc p.1 p.2 with
    | none => rw [hp] at hr; exact absurd hr (by simp)
    | some acc2 =>
      rw [hp] at hr
      have hne : F ≠ p.1 := fun he => (h p (List.mem_cons_self p tl)) he.symm
      rw [ih acc2 (fun q hq => h q (List.mem_cons_of_mem p hq)) res hr]
      exact processLayer_lookup_preserve ops rules units pt fn dbg acc p.1 F p.2 acc2 hne hp

theorem runLayers_rules_indep (ops : PyOps) (rules rules' units : List (String × String))
    (pt : Pt) (fn dbg : Bool) :
    ∀ (ps : List (String × Layer)) (acc : Results × List DebugRow),
    (∀ p ∈ ps, p.1 ∉ acc.1.map Prod.fst) → (ps.map Prod.fst).Nodup →
    runLayers ops rules units pt fn dbg ps acc =
    runLayers ops rules' units pt fn dbg ps acc := by
  intro ps
  induction ps with
  | nil => intro acc _ _; rfl
  | cons p tl ih =>
    intro acc hdis hnd
    obtain ⟨hp1, hnd2⟩ :=
      List.nodup_cons.mp (show (p.1 :: tl.map Prod.fst).Nodup by simpa using hnd)
    have hlp : acc.1.lookup p.1 = none :=
      lookup_eq_none_of_not_mem _ _ (hdis p (List.mem_cons_self p tl))
    simp only [runLayers,
      processLayer_rules_indep ops rules rules' units pt fn dbg acc p.1 p.2 hlp]
    cases hp : processLayer ops rules' units pt fn dbg acc p.1 p.2 with
    | none => rfl
    | some acc2 =>
      apply ih acc2 ?_ hnd2
      intro q hq
      rcases processLayer_keys ops rules' units pt fn dbg acc p.1 p.2 acc2 hp with hk | hk
      · rw [hk]; exact hdis q (List.mem_cons_of_mem p hq)
      · rw [hk]
        simp only [List.mem_append, List.mem_singleton]
        push_neg
        refine ⟨hdis q (List.mem_cons_of_mem p hq), ?_⟩
        intro he
        exact hp1 (he ▸ List.mem_map_of_mem Prod.fst hq)

theorem runLayers_solo (ops : PyOps) (rules units : List (String × String))
    (pt : Pt) (fn dbg : Bool) (F : String) (L : Layer) :
    ∀ (ps : List (String × Layer)) (acc : Results × List DebugRow),
    (F, L) ∈ ps → (ps.map Prod.fst).Nodup → acc.1.lookup F = none →
    ∀ res, runLayers ops rules units pt fn dbg ps acc = some res →
    ∃ solo, processLayer ops rules units pt fn dbg ([], []) F L = some solo ∧
      res.1.lookup F = solo.1.lookup F := by
  intro ps
  induction ps with
  | nil => intro acc hm; simp at hm
  | cons p tl ih =>
    intro acc hm hnd hlk res hr
    obtain ⟨hp1, hnd2⟩ :=
      List.nodup_cons.mp (show (p.1 :: tl.map Prod.fst).Nodup by simpa using hnd)
    simp only [runLayers] at hr
    cases hp : processLayer ops rules units pt fn dbg acc p.1 p.2 with
    | none => rw [hp] at hr; exact absurd hr (by simp)
    | some acc2 =>
      rw [hp] at hr
      rcases List.mem_cons.mp hm with he | hmt
      · have hpF : p.1 = F := by rw [← he]
        have hpL : p.2 = L := by rw [← he]
        rw [hpF, hpL] at hp
        obtain ⟨solo, hsolo, hlk2⟩ :=
          processLayer_solo ops rules units pt fn dbg acc F L acc2 hlk hp
        refine ⟨solo, hsolo, ?_⟩
        have hpres := runLayers_preserve_lookup ops rules units pt fn dbg F tl acc2
          (fun q hq he2 =>
            hp1 (by rw [hpF, ← he2]; exact List.mem_map_of_mem Prod.fst hq))
          res hr
        rw [hpres, hlk2]
      · have hne : p.1 ≠ F := by
          intro he2
          exact hp1 (he2 ▸ List.mem_map_of_mem Prod.fst hmt)
        have hlk2 : acc2.1.lookup F = none := by
          rw [processLayer_lookup_preserve ops rules units pt fn dbg acc p.1 F p.2 acc2
            (fun he2 => hne he2.symm) hp]
          exact hlk
        exact ih acc2 hmt hnd2 hlk2 res hr

/-- C10: with the dict invariant that the registry maps each field to
exactly one layer (no duplicate keys), every field key is assigned into
the results at most once, so the combine-rule branches are dead: the
query result is identical under ANY two combine-rule tables (first
conjunct), and the record returned for a field is exactly the single
record that the tiered algorithm produces for that field's layer alone
(second conjunct). -/
theorem single_record_per_field (ops : PyOps) (rules rules' units : List (String × String))
    (LAYERS : List (String × Layer)) (lat lon : ℚ) (fn dbg : Bool)
    (hnd : (LAYERS.map Prod.fst).Nodup) :
    query_point ops rules units LAYERS lat lon fn dbg =
      query_point ops rules' units LAYERS lat lon fn dbg ∧
    (∀ F L res, (F, L) ∈ LAYERS →
      query_point ops rules units LAYERS lat lon fn dbg = some res →
      ∃ solo, processLayer ops rules units (lon, lat) fn dbg ([], []) F L = some solo ∧
        res.1.lookup F = solo.1.lookup F) := by
  constructor
  · unfold query_point
    dsimp only
    rw [runLayers_rules_indep ops rules rules' units (lon, lat) fn dbg LAYERS ([], [])
      (by simp) hnd]
  · intro F L res hm hq
    unfold query_point at hq
    dsimp only at hq
    cases hr : runLayers ops rules units (lon, lat) fn dbg LAYERS ([], []) with
    | none => rw [hr] at hq; exact absurd hq (by simp)
    | some acc =>
      rw [hr] at hq
      simp only [Option.some.injEq] at hq
      obtain ⟨solo, h1, h2⟩ :=
        runLayers_solo ops rules units (lon, lat) fn dbg F L LAYERS ([], []) hm hnd rfl acc hr
      refine ⟨solo, h1, ?_⟩
      have hres : res.1 = acc.1 := by rw [← hq]
      rw [hres]
      exact h2

/-- Witness for C10: the result over a concrete one-field registry is
identical under the `max` and `min` combine tables. -/
theorem single_record_per_field_witness :
    query_point demoOps [("pga", "max")] [] [("pga", layerC1)] 0 0 true false =
      query_point demoOps [("pga", "min")] [] [("pga", layerC1)] 0 0 true false :=
  (single_record_per_field demoOps [("pga", "max")] [("pga", "min")] []
    [("pga", layerC1)] 0 0 true false (by decide)).1

/- ---------- frame property of the explicit-state form ---------- -/

theorem runLayers_st_fst (ops : PyOps) (rules units : List (String × String)) (pt : Pt)
    (fn dbg : Bool) :
    ∀ (ps : List (String × Layer)) (st st2 : List (String × Layer) × (Results × List DebugRow)),
    runLayers_st ops rules units pt fn dbg ps st = some st2 → st2.1 = st.1 := by
  intro ps
  induction ps with
  | nil =>
    intro st st2 h
    simp only [runLayers_st, Option.some.injEq] at h
    rw [← h]
  | cons p tl ih =>
    intro st st2 h
    simp only [runLayers_st] at h
    cases hp : processLayer ops rules units pt fn dbg st.2 p.1 p.2 with
    | none => rw [hp] at h; exact absurd h (by simp)
    | some acc2 =>
      rw [hp] at h
      exact ih (st.1, acc2) st2 h

theorem query_point_st_fst (ops : PyOps) (rules units : List (String × String))
    (REG : List (String × Layer)) (lat lon : ℚ) (fn dbg : Bool)
    (out : List (String × Layer) × (Results × Option (List DebugRow)))
    (h : query_point_st ops rules units REG lat lon fn dbg = some out) : out.1 = REG := by
  unfold query_point_st at h
  cases hr : runLayers_st ops rules units (lon, lat) fn dbg REG (REG, ([], [])) with
  | none => rw [hr] at h; exact absurd h (by simp)
  | some st =>
    rw [hr] at h
    simp only [Option.some.injEq] at h
    rw [← h]
    exact runLayers_st_fst ops rules units (lon, lat) fn dbg REG (REG, ([], [])) st hr

/-- C9: `query_point` never mutates shared state.  In the explicit-state
translation (`query_point_st`, which threads the layer registry — and
with it every Layer's `field`, `geoms`, `attrs`, `sources`, `strtree` —
through the loop), the registry coming out of any completed call is the
very registry that went in. -/
theorem query_point_no_mutation (ops : PyOps) (rules units : List (String × String))
    (REG : List (String × Layer)) (lat lon : ℚ) (fn dbg : Bool) :
    ∀ out, query_point_st ops rules units REG lat lon fn dbg = some out → out.1 = REG :=
  fun out h => query_point_st_fst ops rules units REG lat lon fn dbg out h

/-- Witness for C9: a concrete run returns the registry unchanged. -/
theorem query_point_no_mutation_witness :
    ∃ out, query_point_st demoOps [] [] [("pga", layerC7)] 0 0 true false = some out ∧
      out.1 = [("pga", layerC7)] :=
  ⟨([("pga", layerC7)], ([], none)), rfl,
    query_point_no_mutation demoOps [] [] [("pga", layerC7)] 0 0 true false
      ([("pga", layerC7)], ([], none)) rfl⟩

/-- C8: `query_point` is deterministic and idempotent over an unmutated
registry: it is a pure function of the registry and the inputs, and
re-running the identical query against the registry state left by a
completed first call yields the bit-identical output (and again the
unchanged registry). -/
theorem query_point_deterministic (ops : PyOps) (rules units : List (String × String))
    (REG : List (String × Layer)) (lat lon : ℚ) (fn dbg : Bool) :
    ∀ out, query_point_st ops rules units REG lat lon fn dbg = some out →
      query_point_st ops rules units out.1 lat lon fn dbg = some out := by
  intro out h
  rw [query_point_st_fst ops rules units REG lat lon fn dbg out h]
  exact h

/-- Witness for C8: repeating a concrete query on the post-call registry
state reproduces the identical output. -/
theorem query_point_deterministic_witness :
    query_point_st demoOps [] [] [("pga", layerC7)] 0 0 true false =
      some ([("pga", layerC7)], ([], none)) :=
  query_point_deterministic demoOps [] [] [("pga", layerC7)] 0 0 true false
    ([("pga", layerC7)], ([], none)) rfl

end KML
